import Mathlib

/-!
Verification of the scDrug single-cell analysis pipeline
(`script/single_cell_analysis.py`) against its natural-language
specification.

The Python script is shallowly embedded below.  Pure data
transformations become Lean functions on lists and rationals; the
floating-point computations of the automatic-resolution search are
modelled exactly, with IEEE-754 binary64 values represented by the
rational numbers they denote and a round-to-nearest-even rounding
function.  External library calls (gseapy's `enrichr`, scanpy's
`louvain`, `rank_genes_groups`, the silhouette score) are abstracted
as function parameters: the theorems hold for every behaviour of
those oracles.
-/

set_option maxHeartbeats 1000000
set_option maxRecDepth 40000

/-! ### Gene set enrichment (`runGSEAPY`, lines 6-46)

`adata.uns` holds, for every cluster (celltype), parallel arrays of
gene names, log-fold-changes, p-values and adjusted p-values; a row of
those arrays is modelled as a `GeneStat`. -/

/-- One gene's differential-expression statistics for one cluster. -/
structure GeneStat where
  name : String
  logfc : ℚ
  pval : ℚ
  padj : ℚ
deriving Repr, DecidableEq

/-- The joint marker threshold of `runGSEAPY`:
`indlist_logfc * indlist_adjp * indlist_p` with
`logfoldchanges >= logfc_threshold`, `pvals_adj <= 1e-2`,
`pvals <= 1e-2`. -/
def markerPass (logfcThreshold : ℚ) (g : GeneStat) : Bool :=
  decide (logfcThreshold ≤ g.logfc) && decide (g.padj ≤ 1/100)
    && decide (g.pval ≤ 1/100)

/-- `degs`: the names of the genes passing the joint threshold, in
array order (lines 13-21). -/
def degsOf (logfcThreshold : ℚ) (stats : List GeneStat) : List String :=
  (stats.filter (markerPass logfcThreshold)).map GeneStat.name

/-- One row of an `enrichr` result table (`enr.res2d`); only the
adjusted p-value takes part in the control flow, the rest of the row
is carried opaquely as `term`. -/
structure EnrRow where
  term : String
  padj : ℚ
deriving Repr, DecidableEq

/-- One row of the final GSEA output table, with the `Cluster` column
assigned by `df_.assign(Cluster = cluster_ind)`. -/
structure OutRow where
  cluster : String
  term : String
  padj : ℚ
deriving Repr, DecidableEq

/-- The enrichment queries actually submitted: the first loop of
`runGSEAPY` (lines 12-33) walks the sorted celltypes, computes `degs`
and `continue`s when the list is empty, otherwise calls `gp.enrichr`
and records the celltype in `cluster_list`. -/
def gseaQueries (logfcThreshold : ℚ) (celltypes : List String)
    (stats : String → List GeneStat) : List (String × List String) :=
  celltypes.filterMap (fun ct =>
    let degs := degsOf logfcThreshold (stats ct)
    if degs.isEmpty then none else some (ct, degs))

/-- The final concatenated table of `runGSEAPY` (lines 35-46): per
recorded cluster, the enrichment rows with adjusted p-value at most
`cutoff`, tagged with the cluster; a cluster whose filtered table is
empty only prints a message and contributes nothing.  `enr` is the
oracle for `gp.enrichr` (description and gene list to result rows). -/
def runGSEAPY (cutoff logfcThreshold : ℚ) (celltypes : List String)
    (stats : String → List GeneStat)
    (enr : String → List String → List EnrRow) : List OutRow :=
  (gseaQueries logfcThreshold celltypes stats).flatMap (fun q =>
    ((enr q.1 q.2).filter (fun r => decide (r.padj ≤ cutoff))).map
      (fun r => ⟨q.1, r.term, r.padj⟩))

/-! ### The `--GEP` option (lines 61, 268-279) -/

/-- Python's `str.lower()`: lower-case each character. -/
def strLower (s : String) : String := ⟨s.data.map Char.toLower⟩

/-- The argparse `type` lambda of `--GEP`:
`lambda x: (str(x).lower() == 'true')`. -/
def parseGEP (x : String) : Bool := strLower x == "true"

/-- The effective value of `args.GEP`: the default `True` when the
option is not supplied, otherwise the lambda applied to the supplied
string. -/
def gepFlag : Option String → Bool
  | none => true
  | some v => parseGEP v

/-- Whether the run writes `GEP.txt`: the export block at line 269 is
guarded by `if args.GEP:`. -/
def gepFileWritten (gepArg : Option String) : Bool := gepFlag gepArg

/-! ### Quality filtering (lines 122-135, 10x/csv path)

A counts matrix is a list of cells (rows), each a list of per-gene
raw counts aligned with the list `names` of gene identifiers. -/

/-- Number of genes detected (count > 0) in a cell; the quantity
`sc.pp.filter_cells(adata, min_genes=200)` thresholds. -/
def detectedGenes (c : List ℕ) : ℕ := c.countP (fun x => decide (0 < x))

/-- `sc.pp.filter_cells(adata, min_genes=200)`: keep cells with at
least 200 detected genes. -/
def filterCells (cells : List (List ℕ)) : List (List ℕ) :=
  cells.filter (fun c => decide (200 ≤ detectedGenes c))

/-- In how many of `cells` gene `j` is detected; the quantity
`sc.pp.filter_genes(adata, min_cells=3)` thresholds. -/
def geneDetectedCount (cells : List (List ℕ)) (j : ℕ) : ℕ :=
  cells.countP (fun c => decide (0 < c.getD j 0))

/-- Indices of the genes kept by `sc.pp.filter_genes(adata,
min_cells=3)`, evaluated on the matrix as it stands at that call. -/
def keptGeneIdx (nGenes : ℕ) (cells : List (List ℕ)) : List ℕ :=
  (List.range nGenes).filter (fun j => decide (3 ≤ geneDetectedCount cells j))

/-- Restriction of a cell's count vector to a set of gene indices. -/
def restrictCell (idx : List ℕ) (c : List ℕ) : List ℕ :=
  idx.map (fun j => c.getD j 0)

/-- `adata.var['mt'] = adata.var_names.str.startswith('MT-')`: the
identifier's character sequence opens with `M`, `T`, `-`. -/
def isMT (s : String) : Bool :=
  match s.data with
  | 'M' :: 'T' :: '-' :: _ => true
  | _ => false

/-- Total count of a cell falling on mitochondrial genes. -/
def mitoSum (names : List String) (c : List ℕ) : ℕ :=
  ((names.zip c).filterMap (fun p => if isMT p.1 then some p.2 else none)).sum

/-- The filter `adata = adata[adata.obs.pct_counts_mt < 30, :]`:
`pct_counts_mt` is `100 * mito / total`; the comparison with 30 is
stated cross-multiplied, which is the exact value of the float
comparison for these magnitudes; on a zero-total cell scanpy produces
NaN and `NaN < 30` is false, so the cell is dropped. -/
def mtKeep (names : List String) (c : List ℕ) : Bool :=
  if c.sum = 0 then false
  else decide (100 * mitoSum names c < 30 * c.sum)

/-- The whole quality-filtering stage of the 10x/csv path in source
order: cell filter, gene filter, then the mitochondrial-fraction cell
filter computed on the gene-filtered matrix.  Returns the retained
gene names and cells. -/
def qcPipeline (names : List String) (cells : List (List ℕ)) :
    List String × List (List ℕ) :=
  let cells1 := filterCells cells
  let idx := keptGeneIdx names.length cells1
  let names2 := idx.map (fun j => names.getD j "")
  let cells2 := cells1.map (restrictCell idx)
  (names2, cells2.filter (mtKeep names2))

/-- The property claimed of the filtered matrix: every retained cell
has at least 200 detected genes and mitochondrial fraction below 30
percent, and every retained gene is detected in at least 3 of the
retained cells. -/
def qcClaim (names : List String) (cells : List (List ℕ)) : Prop :=
  let p := qcPipeline names cells
  (∀ c ∈ p.2, 200 ≤ detectedGenes c ∧ mtKeep p.1 c = true) ∧
    (∀ j < p.1.length, 3 ≤ geneDetectedCount p.2 j)

instance (names : List String) (cells : List (List ℕ)) :
    Decidable (qcClaim names cells) := by
  unfold qcClaim; infer_instance

/-- Gene names of the counterexample matrix: 199 ordinary genes and
one mitochondrial gene. -/
def exNames : List String :=
  (List.range 199).map (fun i => "G" ++ toString i) ++ ["MT-A"]

/-- A cell expressing every gene once, with mitochondrial count 100:
200 detected genes, total 299, mitochondrial fraction 100/299 ≥ 30%. -/
def exCellHighMT : List ℕ := List.replicate 199 1 ++ [100]

/-- A cell expressing every gene once: 200 detected genes,
mitochondrial fraction 1/200 < 30%. -/
def exCellLowMT : List ℕ := List.replicate 199 1 ++ [1]

/-- Counterexample matrix: three cells, all passing the cell filter,
every gene detected in exactly 3 cells at gene-filter time; the
mitochondrial filter then removes the first cell, leaving every gene
detected in only 2 retained cells. -/
def exCells : List (List ℕ) := [exCellHighMT, exCellLowMT, exCellLowMT]

/-! ### Batch-correction control flow (lines 101-108 and 115-164)

Only the argument structure relevant to batch correction is modelled:
the input format, the batch column name, the metadata file's columns
(when a metadata file is given) and the per-cell observation columns
of an h5ad input. -/

/-- Outcome of the batch-correction phase of a run. -/
inductive BatchOutcome where
  | applied : BatchOutcome
  | skipped : BatchOutcome
  | exited : String → BatchOutcome
deriving Repr, DecidableEq

/-- The up-front validation of `--batch` (lines 101-108): with a batch
but no metadata the run exits unless the format is h5ad; with
metadata, the batch column must be one of its columns. -/
def checkBatch (format : String) (batch : Option String)
    (metadataCols : Option (List String)) : Option String :=
  match batch with
  | none => none
  | some b =>
    match metadataCols with
    | none =>
      if format ≠ "h5ad" then
        some "Please provide the metadata file for batch correction with --metadata METADATA."
      else none
    | some cols =>
      if b ∈ cols then none else some "The batch column is not in the metadata file."

/-- The batch-correction block (lines 157-164) as placed in the
source: it sits inside the `else` branch of `if args.format ==
'h5ad':`, so it only executes for non-h5ad formats.  Inside it, when
metadata is present the labels are joined from metadata and harmony
runs; the `elif args.format == 'h5ad'` guard can never hold there, so
otherwise harmony runs unconditionally. -/
def batchStage (format : String) (batch : Option String)
    (metadataCols : Option (List String)) (obsCols : List String) : BatchOutcome :=
  if format = "h5ad" then BatchOutcome.skipped
  else
    match batch with
    | none => BatchOutcome.skipped
    | some b =>
      match metadataCols with
      | some _ => BatchOutcome.applied
      | none =>
        if format = "h5ad" ∧ b ∉ obsCols then
          BatchOutcome.exited "The batch column is not in the Anndata object."
        else BatchOutcome.applied

/-- The run up to and including the batch-correction phase:
validation first (exiting on its message), then the stage itself. -/
def runBatchPhase (format : String) (batch : Option String)
    (metadataCols : Option (List String)) (obsCols : List String) : BatchOutcome :=
  match checkBatch format batch metadataCols with
  | some m => BatchOutcome.exited m
  | none => batchStage format batch metadataCols obsCols

/-! ### Annotation mean-expression matrix (lines 237, 241-246)

`groups = sorted(adata.obs['louvain'].unique(), key=int)` is a list of
distinct cluster labels, integer strings; it is modelled by the list
of their integer values.  `mat = np.zeros((n_genes, len(groups)))` is
filled column by column with `mat[:, int(group)]`. -/

/-- Number of columns of the annotation matrix:
`len(groups)` (line 242). -/
def annotationColCount (groups : List ℕ) : ℕ := groups.length

/-- The column indices written by the fill loop (line 244): for each
`group` the write goes to column `int(group)`. -/
def annotationWriteIndices (groups : List ℕ) : List ℕ := groups

/-- All column writes of the fill loop land inside the matrix. -/
def annotationWritesInBounds (groups : List ℕ) : Prop :=
  ∀ g ∈ annotationWriteIndices groups, g < annotationColCount groups

instance (groups : List ℕ) : Decidable (annotationWritesInBounds groups) := by
  unfold annotationWritesInBounds; infer_instance

/-! ### Flattened differential-expression table (lines 290-292)

`pd.DataFrame({group + '_' + key: result[key][group] for group in
groups for key in ['names', 'logfoldchanges','scores','pvals']})`.
The cell type of a column is abstract (`α`): names are strings, the
other statistics floats. -/

/-- The four per-cluster statistic keys, in source order. -/
def degKeys : List String := ["names", "logfoldchanges", "scores", "pvals"]

/-- Column name of the flattened table: cluster label, underscore,
statistic key. -/
def degColName (g k : String) : String := g ++ "_" ++ k

/-- The ordered columns of `cluster_DEGs.csv`: the dict comprehension
iterates groups in the outer loop and the four keys in the inner
loop; `result k g` is the array `adata.uns['rank_genes_groups'][k][g]`. -/
def clusterDEGsColumns {α : Type} (groups : List String)
    (result : String → String → List α) : List (String × List α) :=
  groups.flatMap (fun g => degKeys.map (fun k => (degColName g k, result k g)))

/-! ### Exact model of the binary64 arithmetic of the resolution grid
(lines 198-226)

Every binary64 value occurring in the automatic-resolution search is
positive, normal and far from overflow, so the value set is captured
exactly by rationals `m * 2 ^ e` with `m < 2 ^ 53`, and every
arithmetic operation is the exact rational operation followed by
rounding to nearest, ties to even.  Rationals are represented by
unnormalised integer fractions (`PreRat`) so that the whole
computation is plain integer arithmetic, and `str` on doubles is
injective, so the dictionary keys `'louvain_r' + str(r)` are modelled
by the values, compared with the value equality `sameVal`. -/

/-- An unnormalised fraction `num / den`; every `PreRat` built below
has a positive denominator. -/
structure PreRat where
  num : ℤ
  den : ℤ
deriving Repr, DecidableEq

/-- Exact difference of fractions. -/
def PreRat.sub (a b : PreRat) : PreRat :=
  ⟨a.num * b.den - b.num * a.den, a.den * b.den⟩

/-- Exact sum of fractions. -/
def PreRat.add (a b : PreRat) : PreRat :=
  ⟨a.num * b.den + b.num * a.den, a.den * b.den⟩

/-- Exact product with an integer. -/
def PreRat.mulInt (a : PreRat) (k : ℤ) : PreRat := ⟨a.num * k, a.den⟩

/-- Exact quotient by an integer. -/
def PreRat.divInt (a : PreRat) (k : ℤ) : PreRat := ⟨a.num, a.den * k⟩

/-- Value equality of fractions (sound for positive denominators). -/
def PreRat.sameVal (a b : PreRat) : Bool := a.num * b.den == b.num * a.den

/-- Floor of a fraction with positive denominator. -/
def PreRat.floor (a : PreRat) : ℤ := Int.fdiv a.num a.den

/-- Round a fraction (positive denominator) to the nearest integer,
ties to even: the rounding of `np.rint` and of each arithmetic
result's significand. -/
def PreRat.rne (a : PreRat) : ℤ :=
  let f : ℤ := a.floor
  let r2 : ℤ := 2 * (a.num - f * a.den)
  if r2 < a.den then f
  else if a.den < r2 then f + 1
  else if f % 2 = 0 then f else f + 1

/-- Fueled floor base-2 logarithm on naturals; structurally recursive
so that the kernel can evaluate it (128 units of fuel cover every
magnitude occurring here). -/
def log2fuel : ℕ → ℕ → ℕ
  | 0, _ => 0
  | fuel + 1, n => if n ≤ 1 then 0 else log2fuel fuel (n / 2) + 1

/-- Floor base-2 logarithm of a natural number below `2 ^ 128`. -/
def nlog2 (n : ℕ) : ℕ := log2fuel 128 n

/-- Floor of the base-2 logarithm of a positive fraction. -/
def PreRat.floorLog2 (a : PreRat) : ℤ :=
  if a.den ≤ a.num then (nlog2 a.floor.toNat : ℤ)
  else
    let f : ℕ := nlog2 (Int.fdiv a.den a.num).toNat
    if a.num * 2 ^ f = a.den then -(f : ℤ) else -(f : ℤ) - 1

/-- The binary64 (IEEE-754 double, round-to-nearest-even) value
nearest to a positive normal-range fraction: scale into `[2^52, 2^53]`,
round the significand to an integer, scale back. -/
def fp (a : PreRat) : PreRat :=
  if a.num = 0 then ⟨0, 1⟩
  else
    let e : ℤ := a.floorLog2 - 52
    let scaled : PreRat :=
      if 0 ≤ e then ⟨a.num, a.den * 2 ^ e.toNat⟩ else ⟨a.num * 2 ^ (-e).toNat, a.den⟩
    let m : ℤ := scaled.rne
    if 0 ≤ e then ⟨m * 2 ^ e.toNat, 1⟩ else ⟨m, 2 ^ (-e).toNat⟩

/-- The double denoted by the literal `0.4`. -/
def lit04 : PreRat := fp ⟨2, 5⟩

/-- The double denoted by the literal `1.4`. -/
def lit14 : PreRat := fp ⟨7, 5⟩

/-- `delta = stop - start` inside `np.linspace(0.4, 1.4, 6)`. -/
def linDelta : PreRat := fp (lit14.sub lit04)

/-- `step = delta / div` with `div = 5` inside `np.linspace`. -/
def linStep : PreRat := fp (linDelta.divInt 5)

/-- The `i`-th entry of `resolutions = np.linspace(0.4, 1.4, 6)`:
`y = arange(0, 6) * step + start` with the last entry overwritten by
the stop value. -/
def linval (i : ℕ) : PreRat :=
  if i = 5 then lit14 else fp ((fp (linStep.mulInt i)).add lit04)

/-- `np.round(x, 1)`: multiply by `10`, round to the nearest integer
(ties to even), divide by `10`, each step in binary64. -/
def round1 (x : PreRat) : PreRat := fp ⟨(fp (x.mulInt 10)).rne, 10⟩

/-- The candidate resolutions of the automatic search. -/
def resolutions : List PreRat := (List.range 6).map linval

/-- `np.argmax` over the first `n` values of `f`: index of the first
occurrence of the maximum. -/
def idxOfMax (f : ℕ → ℚ) (n : ℕ) : ℕ :=
  (List.range n).foldl (fun b i => if f b < f i then i else b) 0

/-- Association-list lookup keyed by double value (`str` on doubles is
injective, so comparing the printed keys is comparing the values). -/
def lookupPR {L : Type} (k : PreRat) : List (PreRat × L) → Option L
  | [] => none
  | (k', v) :: rest => if k.sameVal k' then some v else lookupPR k rest

/-- The per-candidate clustering columns stored in `adata.obs` during
the search: for candidate `i` the loop rounds the resolution
(`r = np.round(r, 1)`), clusters the full dataset at the rounded
resolution and stores the labels under the key built from the rounded
resolution (line 218).  `labelAt r` is the (deterministic) louvain
labelling of the full dataset at resolution `r`. -/
def louvainStore {L : Type} (labelAt : PreRat → L) : List (PreRat × L) :=
  (List.range 6).map (fun i => (round1 (linval i), labelAt (round1 (linval i))))

/-- `best_resution = resolutions[np.argmax(silhouette_avg)]`
(line 223): the unrounded grid value at the argmax index. -/
def bestResolution (sil : ℕ → ℚ) : PreRat := linval (idxOfMax sil 6)

/-- The final clustering assignment
`adata.obs['louvain'] = adata.obs['louvain_r' + str(best_resution)]`
(line 224), modelled as a keyed lookup in the stored columns;
`none` models a `KeyError`. -/
def finalLouvain {L : Type} (labelAt : PreRat → L) (sil : ℕ → ℚ) : Option L :=
  lookupPR (bestResolution sil) (louvainStore labelAt)

/-! ### Subsampled co-clustering distance (lines 177-216)

Cells are `Fin n`; a subsample is the list of drawn cell indices and
`cl` the per-subsample-position cluster labels produced by louvain on
the subsample. -/

/-- The per-repeat co-occurrence indicator built by the double loop of
`subsample_clustering`: entry `(x, y)` is set whenever both cells are
positions of the subsample. -/
def subMat {n : ℕ} (sub : List (Fin n)) (x y : Fin n) : Bool :=
  decide (x ∈ sub) && decide (y ∈ sub)

/-- The per-repeat co-clustering indicator: entry `(x, y)` is set
whenever some positions `i`, `j` of the subsample have
`subsample[i] = x`, `subsample[j] = y` and equal cluster labels. -/
def coMat {n : ℕ} {L : Type} [DecidableEq L]
    (sub : List (Fin n)) (cl : List L) (x y : Fin n) : Bool :=
  (sub.zip cl).any (fun p =>
    decide (p.1 = x) && (sub.zip cl).any (fun q =>
      decide (q.1 = y) && decide (p.2 = q.2)))

/-- The worker function of the search (lines 177-192): one subsample's
pair of indicator matrices. -/
def subsample_clustering {n : ℕ} {L : Type} [DecidableEq L]
    (sub : List (Fin n)) (cl : List L) :
    (Fin n → Fin n → Bool) × (Fin n → Fin n → Bool) :=
  (subMat sub, coMat sub cl)

/-- Entrywise sum of boolean matrices over the repeats
(`sum([result[k] for result in resultList])`). -/
def boolCount {n : ℕ} (ms : List (Fin n → Fin n → Bool)) (x y : Fin n) : ℕ :=
  (ms.map (fun m => if m x y then 1 else 0)).sum

/-- The sentinel substitution
`subsampling_n[np.where(subsampling_n == 0)] = 1e6` (line 214). -/
def sentinelDenom (k : ℕ) : ℚ := if k = 0 then 1000000 else (k : ℚ)

/-- Entry `(x, y)` of the derived distance matrix:
`distance = 1.0 - coclustering_n / subsampling_n` followed by
`np.fill_diagonal(distance, 0.0)` (lines 215-216).  All quantities
are exact here (small integers, and the sentinel division is exact),
so rationals model the float arithmetic faithfully. -/
def distanceEntry {n : ℕ}
    (results : List ((Fin n → Fin n → Bool) × (Fin n → Fin n → Bool)))
    (x y : Fin n) : ℚ :=
  if x = y then 0
  else 1 - (boolCount (results.map Prod.snd) x y : ℚ) /
      sentinelDenom (boolCount (results.map Prod.fst) x y)

/-! ### Worker-pool dispatch and the whole search (lines 194-226)

`mp.Pool(args.cpus).map` executes the five repeats in an arbitrary
completion order but returns the results in submission order.  The
completion order is modelled by an explicit schedule: a permutation of
the task indices. -/

/-- Pool map under a completion schedule: tasks run in `sched` order,
and the result list is re-assembled in submission order (`none` would
mark a task no schedule entry completed). -/
def poolMap {α β : Type} (sched : List ℕ) (f : α → β) (xs : List α) :
    List (Option β) :=
  let completed : List (ℕ × β) :=
    sched.filterMap (fun i => ((xs[i]?).map f).map (fun b => (i, b)))
  (List.range xs.length).map (fun i => completed.lookup i)

/-- The deterministic ingredients of one automatic-resolution run:
the seeded subsample stream (`np.random.seed(1)` is executed once, so
candidate `ri` consumes stream positions `5 * ri + t`), the worker
sent to the pool, the silhouette scoring of the collected results, and
the full-dataset louvain labelling.  Two runs on identical input share
one `SearchParams`. -/
structure SearchParams (S W L : Type) where
  draw : ℕ → S
  worker : S → PreRat → W
  score : List (Option W) → PreRat → ℚ
  louvain : PreRat → L

/-- The silhouette score of candidate `ri` under a pool schedule:
draw the 5 subsamples of this candidate from the shared stream,
dispatch the workers at the rounded resolution, score the collected
results. -/
def candidateScore {S W L : Type} (P : SearchParams S W L) (sched : ℕ → List ℕ)
    (ri : ℕ) : ℚ :=
  let r := round1 (linval ri)
  let subs := (List.range 5).map (fun t => P.draw (ri * 5 + t))
  P.score (poolMap (sched ri) (fun s => P.worker s r) subs) r

/-- One automatic-resolution run under a given pool schedule: score
the 6 candidates, then select the argmax resolution and its
full-dataset labelling. -/
def searchRun {S W L : Type} (P : SearchParams S W L) (sched : ℕ → List ℕ) :
    PreRat × L :=
  let bi := idxOfMax (candidateScore P sched) 6
  (linval bi, P.louvain (round1 (linval bi)))

/-- A pool schedule is complete for `k` submitted tasks when every
task index is eventually executed. -/
def completeSched (sched : List ℕ) (k : ℕ) : Prop := ∀ t < k, t ∈ sched

instance (sched : List ℕ) (k : ℕ) : Decidable (completeSched sched k) := by
  unfold completeSched; infer_instance

/-! ## Theorems -/

/-- A nodup list of naturals all below its length enumerates exactly
`0, …, length-1`. -/
theorem toFinset_eq_range_of_lt (l : List ℕ) (hn : l.Nodup)
    (hlt : ∀ g ∈ l, g < l.length) : l.toFinset = Finset.range l.length := by
  apply Finset.eq_of_subset_of_card_le
  · intro g hg
    rw [List.mem_toFinset] at hg
    exact Finset.mem_range.mpr (hlt g hg)
  · rw [Finset.card_range, List.toFinset_card_of_nodup hn]

/-- C9: the `--GEP` command-line option is enabled iff the supplied
value lower-cases to `'true'`; any other value (such as `'1'` or
`'yes'`) silently disables the `GEP.txt` export, although the export is
enabled by default when the option is not supplied. -/
theorem gep_option_true_string_only :
    (∀ v : String, gepFileWritten (some v) = true ↔ strLower v = "true") ∧
      gepFileWritten (some "1") = false ∧
      gepFileWritten (some "yes") = false ∧
      gepFileWritten (some "TRUE") = true ∧
      gepFileWritten none = true := by
  refine ⟨fun v => ?_, by decide, by decide, by decide, rfl⟩
  simp [gepFileWritten, gepFlag, parseGEP]

/-- C9 witness: the option parser at the concrete values named in the
claim. -/
theorem gep_option_true_string_only_witness :
    gepFileWritten (some "True") = true ↔ strLower "True" = "true" :=
  gep_option_true_string_only.1 "True"

/-- C2: contrary to the claim, a run on an h5ad input with a batch
column supplied and no metadata file is never batch-corrected — the
harmony block sits inside the non-h5ad branch — and when the column is
also absent from the observations no descriptive error is raised
either: the phase is silently skipped. -/
theorem batch_h5ad_never_corrected :
    (∀ (b : String) (obsCols : List String),
        runBatchPhase "h5ad" (some b) none obsCols = BatchOutcome.skipped) ∧
      runBatchPhase "h5ad" (some "PatientID") none ["PatientID"] =
        BatchOutcome.skipped ∧
      runBatchPhase "h5ad" (some "PatientID") none [] = BatchOutcome.skipped :=
  ⟨fun _ _ => rfl, rfl, rfl⟩

/-- C10: with distinct integer cluster labels, the annotation fill
loop stays inside the matrix iff the labels are exactly `0, …, k-1`;
whenever they are not such a prefix of the naturals, some write indexes
at or beyond the column count. -/
theorem annotation_write_bounds (groups : List ℕ) (hn : groups.Nodup) :
    (annotationWritesInBounds groups ↔
        groups.toFinset = Finset.range (annotationColCount groups)) ∧
      (groups.toFinset ≠ Finset.range (annotationColCount groups) →
        ∃ g ∈ annotationWriteIndices groups, annotationColCount groups ≤ g) := by
  have hiff : annotationWritesInBounds groups ↔
      groups.toFinset = Finset.range (annotationColCount groups) := by
    constructor
    · intro hin
      exact toFinset_eq_range_of_lt groups hn hin
    · intro heq g hg
      have : g ∈ groups.toFinset := List.mem_toFinset.mpr hg
      rw [heq] at this
      exact Finset.mem_range.mp this
  refine ⟨hiff, fun hne => ?_⟩
  have hnotin : ¬ annotationWritesInBounds groups := fun hin => hne (hiff.mp hin)
  unfold annotationWritesInBounds at hnotin
  push_neg at hnotin
  obtain ⟨g, hg, hge⟩ := hnotin
  exact ⟨g, hg, hge⟩

/-- C10 witness: the cluster subset `'3,5'` from the claim — two
clusters, but a write into column 5 of a 2-column matrix. -/
theorem annotation_write_bounds_witness :
    [3, 5].Nodup ∧ ∃ g ∈ annotationWriteIndices [3, 5], annotationColCount [3, 5] ≤ g :=
  ⟨by decide, (annotation_write_bounds [3, 5] (by decide)).2 (by decide)⟩

/-- Membership facts of a submitted query: it comes from a celltype of
the list, its gene list is that celltype's `degs`, and it is
nonempty. -/
theorem mem_gseaQueries (logfcT : ℚ) (celltypes : List String)
    (stats : String → List GeneStat) (q : String × List String)
    (hq : q ∈ gseaQueries logfcT celltypes stats) :
    q.1 ∈ celltypes ∧ q.2 = degsOf logfcT (stats q.1) ∧ q.2 ≠ [] := by
  rw [gseaQueries, List.mem_filterMap] at hq
  obtain ⟨ct, hct, hqe⟩ := hq
  by_cases he : (degsOf logfcT (stats ct)).isEmpty
  · simp [he] at hqe
  · simp only [he, Bool.false_eq_true, if_false, Option.some.injEq] at hqe
    subst hqe
    exact ⟨hct, rfl, by simpa using he⟩

/-- Every row of the final GSEA table comes from a submitted query:
its cluster is the query's celltype and its adjusted p-value passed
the cutoff filter. -/
theorem mem_runGSEAPY (cutoff logfcT : ℚ) (celltypes : List String)
    (stats : String → List GeneStat) (enr : String → List String → List EnrRow)
    (row : OutRow) (hrow : row ∈ runGSEAPY cutoff logfcT celltypes stats enr) :
    ∃ q ∈ gseaQueries logfcT celltypes stats,
      row.cluster = q.1 ∧
      ∃ r ∈ (enr q.1 q.2).filter (fun r => decide (r.padj ≤ cutoff)),
        row = ⟨q.1, r.term, r.padj⟩ := by
  rw [runGSEAPY, List.mem_flatMap] at hrow
  obtain ⟨q, hqmem, hrm⟩ := hrow
  rw [List.mem_map] at hrm
  obtain ⟨r, hr, hre⟩ := hrm
  exact ⟨q, hqmem, by rw [← hre], r, hr, hre.symm⟩

/-- C6: the gene list submitted to `enrichr` for a cluster consists
exactly of the genes whose statistics jointly satisfy
log-fold-change ≥ 2, adjusted p-value ≤ 0.01 and raw p-value ≤ 0.01
(in array order), and a cluster whose marker list is empty is skipped:
it contributes no query and no output row. -/
theorem gsea_marker_selection (cutoff : ℚ) (celltypes : List String)
    (stats : String → List GeneStat) (enr : String → List String → List EnrRow) :
    (∀ q ∈ gseaQueries 2 celltypes stats,
        q.2 = ((stats q.1).filter (fun g =>
            decide ((2 : ℚ) ≤ g.logfc) && decide (g.padj ≤ 1/100) &&
              decide (g.pval ≤ 1/100))).map GeneStat.name ∧ q.2 ≠ []) ∧
      ∀ ct, degsOf 2 (stats ct) = [] →
        (∀ q ∈ gseaQueries 2 celltypes stats, q.1 ≠ ct) ∧
        (∀ row ∈ runGSEAPY cutoff 2 celltypes stats enr, row.cluster ≠ ct) := by
  have hchar : ∀ q ∈ gseaQueries 2 celltypes stats,
      q.2 = degsOf 2 (stats q.1) ∧ q.2 ≠ [] := fun q hq =>
    ⟨(mem_gseaQueries 2 celltypes stats q hq).2.1,
     (mem_gseaQueries 2 celltypes stats q hq).2.2⟩
  have hne : ∀ ct, degsOf 2 (stats ct) = [] →
      ∀ q ∈ gseaQueries 2 celltypes stats, q.1 ≠ ct := by
    intro ct hct q hq hq1
    obtain ⟨hdeg, hnonempty⟩ := hchar q hq
    rw [hdeg, hq1, hct] at hnonempty
    exact hnonempty rfl
  refine ⟨fun q hq => ⟨?_, (hchar q hq).2⟩, fun ct hct => ⟨hne ct hct, ?_⟩⟩
  · rw [(hchar q hq).1]; rfl
  · intro row hrow
    obtain ⟨q, hqmem, hcl, -⟩ :=
      mem_runGSEAPY cutoff 2 celltypes stats enr row hrow
    rw [hcl]
    exact hne ct hct q hqmem

/-- C6 witness: a two-cluster instance; cluster `1`'s lone gene fails
the fold-change threshold, so it is skipped and no output row carries
it. -/
theorem gsea_marker_selection_witness :
    degsOf 2 ((fun ct : String =>
        if ct = "0" then [(⟨"A", 3, 0, 0⟩ : GeneStat)] else [⟨"B", 1, 0, 0⟩]) "1") = [] ∧
      ∀ row ∈ runGSEAPY (1/20) 2 ["0", "1"]
          (fun ct => if ct = "0" then [⟨"A", 3, 0, 0⟩] else [⟨"B", 1, 0, 0⟩])
          (fun _ _ => [⟨"T", 0⟩]),
        row.cluster ≠ "1" := by
  have h : degsOf 2 ((fun ct : String =>
      if ct = "0" then [(⟨"A", 3, 0, 0⟩ : GeneStat)] else [⟨"B", 1, 0, 0⟩]) "1") = [] := by
    norm_num [degsOf, markerPass, List.filter]
  exact ⟨h, ((gsea_marker_selection (1/20) ["0", "1"] _ _).2 "1" h).2⟩

/-- C7: every row of the final GSEA table has adjusted p-value at most
the cutoff, and a cluster whose enrichment table has no row at or
below the cutoff contributes no rows at all. -/
theorem gsea_cutoff_respected (cutoff logfcT : ℚ) (celltypes : List String)
    (stats : String → List GeneStat) (enr : String → List String → List EnrRow) :
    (∀ row ∈ runGSEAPY cutoff logfcT celltypes stats enr, row.padj ≤ cutoff) ∧
      ∀ q ∈ gseaQueries logfcT celltypes stats,
        (enr q.1 q.2).filter (fun r => decide (r.padj ≤ cutoff)) = [] →
        ∀ row ∈ runGSEAPY cutoff logfcT celltypes stats enr, row.cluster ≠ q.1 := by
  constructor
  · intro row hrow
    obtain ⟨q, -, -, r, hr, hre⟩ :=
      mem_runGSEAPY cutoff logfcT celltypes stats enr row hrow
    rw [List.mem_filter] at hr
    rw [hre]
    exact of_decide_eq_true hr.2
  · intro q hq hfilter row hrow hcl
    obtain ⟨q', hq'mem, hcl', r, hr, -⟩ :=
      mem_runGSEAPY cutoff logfcT celltypes stats enr row hrow
    have h1 : q'.1 = q.1 := by rw [← hcl', hcl]
    have h2 : q'.2 = q.2 := by
      rw [(mem_gseaQueries logfcT celltypes stats q' hq'mem).2.1,
        (mem_gseaQueries logfcT celltypes stats q hq).2.1, h1]
    rw [h1, h2, hfilter] at hr
    exact (List.not_mem_nil r) hr

/-- C7 witness: one cluster whose only enrichment row has adjusted
p-value 1, above the cutoff 0.05 — the output carries no row for it. -/
theorem gsea_cutoff_respected_witness :
    (("0", ["A"]) ∈ gseaQueries 2 ["0"] (fun _ => [(⟨"A", 3, 0, 0⟩ : GeneStat)])) ∧
      ∀ row ∈ runGSEAPY (1/20) 2 ["0"] (fun _ => [⟨"A", 3, 0, 0⟩])
          (fun _ _ => [⟨"T", 1⟩]),
        row.cluster ≠ "0" := by
  have hq : (("0", ["A"]) ∈ gseaQueries 2 ["0"]
      (fun _ => [(⟨"A", 3, 0, 0⟩ : GeneStat)])) := by
    norm_num [gseaQueries, degsOf, markerPass, List.filter, List.filterMap]
  have hf : (((fun _ _ => [(⟨"T", 1⟩ : EnrRow)]) ("0", ["A"]).1 ("0", ["A"]).2).filter
      (fun r => decide (r.padj ≤ (1/20 : ℚ)))) = [] := by
    norm_num [List.filter]
  exact ⟨hq, (gsea_cutoff_respected (1/20) 2 ["0"] _ _).2 ("0", ["A"]) hq hf⟩

/-- C3 counterexample: on the concrete 200-gene, 3-cell matrix
`exCells` the claimed property fails — the mitochondrial filter runs
after the gene filter, so after it every gene of the retained matrix
is detected in only 2 retained cells. -/
theorem qc_claim_counterexample : ¬ qcClaim exNames exCells := by decide

/-- C3 as amended: every retained cell passes the mitochondrial
filter over the retained genes and is the gene-restriction of a cell
with at least 200 detected genes at cell-filter time, and every
retained gene was detected in at least 3 cells of the cell-filtered
(pre-mitochondrial-filter) matrix. -/
theorem qc_filter_guarantees (names : List String) (cells : List (List ℕ)) :
    (∀ c ∈ (qcPipeline names cells).2,
        mtKeep (qcPipeline names cells).1 c = true ∧
        ∃ c0 ∈ filterCells cells,
          200 ≤ detectedGenes c0 ∧
          c = restrictCell (keptGeneIdx names.length (filterCells cells)) c0) ∧
      ∀ j ∈ keptGeneIdx names.length (filterCells cells),
        3 ≤ geneDetectedCount (filterCells cells) j := by
  constructor
  · intro c hc
    simp only [qcPipeline, List.mem_filter] at hc
    obtain ⟨hcm, hmt⟩ := hc
    rw [List.mem_map] at hcm
    obtain ⟨c0, hc0, hrest⟩ := hcm
    have h200 : 200 ≤ detectedGenes c0 := by
      have := (List.mem_filter.mp hc0).2
      exact of_decide_eq_true this
    exact ⟨hmt, c0, hc0, h200, hrest.symm⟩
  · intro j hj
    have := (List.mem_filter.mp hj).2
    exact of_decide_eq_true this

/-- C3 witness: the guarantees instantiated on the counterexample
matrix — gene 0 is detected in all 3 cells of the cell-filtered
matrix. -/
theorem qc_filter_guarantees_witness :
    0 ∈ keptGeneIdx exNames.length (filterCells exCells) ∧
      3 ≤ geneDetectedCount (filterCells exCells) 0 :=
  ⟨by decide, (qc_filter_guarantees exNames exCells).2 0 (by decide)⟩

/-- Splitting a character list at its first underscore is unique. -/
theorem underscore_split_inj {l1 l2 k1 k2 : List Char}
    (h1 : '_' ∉ l1) (h2 : '_' ∉ l2)
    (h : l1 ++ '_' :: k1 = l2 ++ '_' :: k2) : l1 = l2 ∧ k1 = k2 := by
  induction l1 generalizing l2 with
  | nil =>
    cases l2 with
    | nil =>
      simp only [List.nil_append, List.cons.injEq] at h
      exact ⟨rfl, h.2⟩
    | cons c t =>
      simp only [List.nil_append, List.cons_append, List.cons.injEq] at h
      exact absurd (show ('_' : Char) ∈ c :: t by
        rw [h.1]; exact List.mem_cons_self c t) h2
  | cons c t ih =>
    cases l2 with
    | nil =>
      simp only [List.cons_append, List.nil_append, List.cons.injEq] at h
      exact absurd (show ('_' : Char) ∈ c :: t by
        rw [← h.1]; exact List.mem_cons_self c t) h1
    | cons c' t' =>
      simp only [List.cons_append, List.cons.injEq] at h
      simp only [List.mem_cons, not_or] at h1 h2
      obtain ⟨hts, hks⟩ := ih h1.2 h2.2 h.2
      exact ⟨by rw [h.1, hts], hks⟩

/-- Underscore-free cluster labels make the flattened column names
injective in the label and the statistic key. -/
theorem degColName_inj {g1 g2 k1 k2 : String}
    (h1 : '_' ∉ g1.data) (h2 : '_' ∉ g2.data)
    (h : degColName g1 k1 = degColName g2 k2) : g1 = g2 ∧ k1 = k2 := by
  have hd : g1.data ++ '_' :: k1.data = g2.data ++ '_' :: k2.data := by
    have hc := congrArg String.data h
    simpa [degColName, String.data_append] using hc
  obtain ⟨ha, hb⟩ := underscore_split_inj h1 h2 hd
  exact ⟨congrArg String.mk ha, congrArg String.mk hb⟩

/-- The flattened table has 4 columns per cluster. -/
theorem clusterDEGsColumns_length {α : Type} (groups : List String)
    (result : String → String → List α) :
    (clusterDEGsColumns groups result).length = 4 * groups.length := by
  induction groups with
  | nil => rfl
  | cons g t ih =>
    simp only [clusterDEGsColumns, List.flatMap_cons, List.length_append,
      List.length_map, List.length_cons, degKeys, List.length_nil] at ih ⊢
    omega

/-- The column names of the flattened table, in order. -/
theorem clusterDEGsColumns_names {α : Type} (groups : List String)
    (result : String → String → List α) :
    (clusterDEGsColumns groups result).map Prod.fst =
      groups.flatMap (fun g => degKeys.map (degColName g)) := by
  rw [clusterDEGsColumns, List.map_flatMap]
  rfl

/-- Distinct underscore-free cluster labels give pairwise-disjoint
column-name blocks. -/
theorem degCol_blocks_disjoint (groups : List String)
    (hu : ∀ g ∈ groups, '_' ∉ g.data) (hn : groups.Nodup) :
    groups.Pairwise (fun g1 g2 =>
      List.Disjoint (degKeys.map (degColName g1)) (degKeys.map (degColName g2))) := by
  induction groups with
  | nil => exact List.Pairwise.nil
  | cons g t ih =>
    rw [List.nodup_cons] at hn
    refine List.Pairwise.cons ?_
      (ih (fun x hx => hu x (List.mem_cons_of_mem g hx)) hn.2)
    intro g' hg' x hx1 hx2
    obtain ⟨k, -, he⟩ := List.mem_map.mp hx1
    obtain ⟨k', -, he'⟩ := List.mem_map.mp hx2
    have hinj := degColName_inj (hu g (List.mem_cons_self g t))
      (hu g' (List.mem_cons_of_mem g hg')) (he.trans he'.symm)
    exact hn.1 (hinj.1 ▸ hg')

/-- C8: with distinct underscore-free cluster labels and the test's
per-cluster arrays all of length `nGenes` (one entry per gene of the
tested matrix), the flattened `cluster_DEGs.csv` table has exactly
4 columns per cluster — named label, underscore, statistic key, all
distinct — and every column has exactly `nGenes` rows. -/
theorem cluster_degs_table_shape {α : Type} (groups : List String)
    (result : String → String → List α) (nGenes : ℕ)
    (hn : groups.Nodup) (hu : ∀ g ∈ groups, '_' ∉ g.data)
    (hlen : ∀ k ∈ degKeys, ∀ g ∈ groups, (result k g).length = nGenes) :
    (clusterDEGsColumns groups result).length = 4 * groups.length ∧
      (clusterDEGsColumns groups result).map Prod.fst =
        groups.flatMap (fun g => degKeys.map (degColName g)) ∧
      ((clusterDEGsColumns groups result).map Prod.fst).Nodup ∧
      ∀ c ∈ clusterDEGsColumns groups result, c.2.length = nGenes := by
  refine ⟨clusterDEGsColumns_length groups result,
    clusterDEGsColumns_names groups result, ?_, ?_⟩
  · rw [clusterDEGsColumns_names groups result, List.nodup_flatMap]
    constructor
    · intro g hg
      refine List.Nodup.map_on ?_ (by decide)
      intro k1 hk1 k2 hk2 hk
      exact (degColName_inj (hu g hg) (hu g hg) hk).2
    · exact degCol_blocks_disjoint groups hu hn
  · intro c hc
    rw [clusterDEGsColumns, List.mem_flatMap] at hc
    obtain ⟨g, hg, hcm⟩ := hc
    rw [List.mem_map] at hcm
    obtain ⟨k, hk, hce⟩ := hcm
    rw [← hce]
    exact hlen k hk g hg

/-- C8 witness: two clusters, every statistic array of length 1. -/
theorem cluster_degs_table_shape_witness :
    (clusterDEGsColumns ["0", "1"] (fun _ _ => ["x"])).length = 4 * 2 ∧
      ∀ c ∈ clusterDEGsColumns ["0", "1"] (fun _ _ => ["x"]), c.2.length = 1 := by
  have h := cluster_degs_table_shape ["0", "1"] (fun _ _ => ["x"]) 1
    (by decide) (by decide) (by decide)
  exact ⟨h.1, h.2.2.2⟩

/-- Co-clustering of a pair in one repeat implies its co-occurrence in
that repeat. -/
theorem coMat_imp_subMat {n : ℕ} {L : Type} [DecidableEq L]
    (sub : List (Fin n)) (cl : List L) (x y : Fin n)
    (h : coMat sub cl x y = true) : subMat sub x y = true := by
  rw [coMat, List.any_eq_true] at h
  obtain ⟨p, hp, hpx⟩ := h
  rw [Bool.and_eq_true] at hpx
  obtain ⟨hp1, hq⟩ := hpx
  rw [List.any_eq_true] at hq
  obtain ⟨q, hq1, hq2⟩ := hq
  rw [Bool.and_eq_true] at hq2
  obtain ⟨px, pc⟩ := p
  obtain ⟨qx, qc⟩ := q
  have hx : px ∈ sub := (List.of_mem_zip hp).1
  have hy : qx ∈ sub := (List.of_mem_zip hq1).1
  rw [subMat, Bool.and_eq_true, decide_eq_true_iff, decide_eq_true_iff]
  have hex : px = x := of_decide_eq_true hp1
  have hey : qx = y := of_decide_eq_true hq2.1
  exact ⟨hex ▸ hx, hey ▸ hy⟩

/-- An entrywise sum of indicator matrices vanishes iff every matrix
vanishes at that entry. -/
theorem boolCount_eq_zero_iff {n : ℕ} (ms : List (Fin n → Fin n → Bool))
    (x y : Fin n) : boolCount ms x y = 0 ↔ ∀ m ∈ ms, m x y = false := by
  rw [boolCount, List.sum_eq_zero_iff]
  constructor
  · intro h m hm
    have := h (if m x y then 1 else 0) (List.mem_map_of_mem _ hm)
    by_contra hne
    rw [Bool.not_eq_false] at hne
    rw [hne] at this
    simp at this
  · intro h v hv
    rw [List.mem_map] at hv
    obtain ⟨m, hm, hve⟩ := hv
    rw [h m hm] at hve
    simp [← hve]

/-- C4: a pair of distinct cells that never co-occurred in any repeat
has co-clustering count zero, so the sentinel denominator makes its
distance `1 - count / 1e6` — within `5e-6` of 1 (indeed exactly 1) —
and every diagonal entry of the distance matrix is 0. -/
theorem never_cooccurring_pair_distance {n : ℕ} {L : Type} [DecidableEq L]
    (repeats : List (List (Fin n) × List L)) (x y : Fin n) (hxy : x ≠ y)
    (h0 : boolCount
      (((repeats.map fun rp => subsample_clustering rp.1 rp.2)).map Prod.fst) x y = 0) :
    (distanceEntry (repeats.map fun rp => subsample_clustering rp.1 rp.2) x y =
        1 - (boolCount
          (((repeats.map fun rp => subsample_clustering rp.1 rp.2)).map Prod.snd) x y : ℚ)
          / 1000000) ∧
      |distanceEntry (repeats.map fun rp => subsample_clustering rp.1 rp.2) x y - 1|
        ≤ 5 / 1000000 ∧
      ∀ z : Fin n,
        distanceEntry (repeats.map fun rp => subsample_clustering rp.1 rp.2) z z = 0 := by
  have hco : boolCount
      (((repeats.map fun rp => subsample_clustering rp.1 rp.2)).map Prod.snd) x y = 0 := by
    rw [boolCount_eq_zero_iff] at h0 ⊢
    intro m hm
    rw [List.mem_map] at hm
    obtain ⟨pr, hpr, hme⟩ := hm
    rw [List.mem_map] at hpr
    obtain ⟨rp, hrp, hpre⟩ := hpr
    by_contra hne
    rw [Bool.not_eq_false] at hne
    have hmco : m = coMat rp.1 rp.2 := by rw [← hme, ← hpre]; rfl
    have hsub := coMat_imp_subMat rp.1 rp.2 x y (hmco ▸ hne)
    have hmem : subMat rp.1 ∈
        ((repeats.map fun rp => subsample_clustering rp.1 rp.2)).map Prod.fst := by
      rw [List.mem_map]
      exact ⟨subsample_clustering rp.1 rp.2, List.mem_map_of_mem _ hrp, rfl⟩
    rw [h0 (subMat rp.1) hmem] at hsub
    exact Bool.false_ne_true hsub
  have hmain : distanceEntry (repeats.map fun rp => subsample_clustering rp.1 rp.2) x y =
      1 - (boolCount
        (((repeats.map fun rp => subsample_clustering rp.1 rp.2)).map Prod.snd) x y : ℚ)
        / 1000000 := by
    rw [distanceEntry, if_neg hxy, h0]
    norm_num [sentinelDenom]
  refine ⟨hmain, ?_, fun z => by rw [distanceEntry, if_pos rfl]⟩
  rw [hmain, hco]
  norm_num

/-- C4 witness: two cells, one singleton subsample — the pair (0, 1)
never co-occurs and its distance is exactly `1 - 0 / 1e6`. -/
theorem never_cooccurring_pair_distance_witness :
    ((0 : Fin 2) ≠ 1) ∧
      boolCount ((([([0], [0])] : List (List (Fin 2) × List ℕ)).map
        fun rp => subsample_clustering rp.1 rp.2).map Prod.fst) 0 1 = 0 ∧
      distanceEntry ((([([0], [0])] : List (List (Fin 2) × List ℕ)).map
          fun rp => subsample_clustering rp.1 rp.2)) 0 1 =
        1 - (boolCount ((([([0], [0])] : List (List (Fin 2) × List ℕ)).map
          fun rp => subsample_clustering rp.1 rp.2).map Prod.snd) 0 1 : ℚ) / 1000000 :=
  ⟨by decide, by decide,
    (never_cooccurring_pair_distance [([0], [0])] 0 1 (by decide) (by decide)).1⟩

/-- Looking up a key in the completed-task list finds the task's own
result, whatever the completion order. -/
theorem lookup_completed {β : Type} (h : ℕ → Option β) (sched : List ℕ)
    (i : ℕ) (b : β) (hi : i ∈ sched) (hb : h i = some b) :
    (sched.filterMap (fun j => (h j).map (fun v => (j, v)))).lookup i = some b := by
  induction sched with
  | nil => cases hi
  | cons j tl ih =>
    rw [List.filterMap_cons]
    cases hj : h j with
    | none =>
      have hij : i ≠ j := fun he => by rw [he, hj] at hb; cases hb
      simp only [Option.map_none']
      exact ih ((List.mem_cons.mp hi).resolve_left hij)
    | some c =>
      by_cases hij : i = j
      · subst hij
        rw [hj] at hb
        simp only [Option.map_some', List.lookup_cons_self]
        exact congrArg some (Option.some.inj hb)
      · simp only [Option.map_some', List.lookup_cons, beq_false_of_ne hij,
          Bool.false_eq_true, if_false]
        exact ih ((List.mem_cons.mp hi).resolve_left hij)

/-- Under any complete schedule the pool map returns exactly the
submission-ordered results. -/
theorem poolMap_complete {α β : Type} (sched : List ℕ) (f : α → β)
    (xs : List α) (h : completeSched sched xs.length) :
    poolMap sched f xs = (List.range xs.length).map (fun i => (xs[i]?).map f) := by
  rw [poolMap]
  apply List.map_congr_left
  intro i hi
  rw [List.mem_range] at hi
  have hsome : ((xs[i]?).map f) = some (f (xs[i])) := by
    rw [List.getElem?_eq_getElem hi]
    rfl
  rw [lookup_completed (fun j => (xs[j]?).map f) sched i (f (xs[i])) (h i hi) hsome,
    hsome]

/-- C5: the automatic-resolution search is deterministic — for one
input (one `SearchParams`: the seeded stream, the worker, the scorer
and the louvain labelling), any two complete pool schedules select the
same resolution and the same final clustering, because results are
re-assembled in submission order and the seeded stream is fixed once
for the whole search. -/
theorem search_deterministic {S W L : Type} (P : SearchParams S W L)
    (s1 s2 : ℕ → List ℕ) (h1 : ∀ ri, completeSched (s1 ri) 5)
    (h2 : ∀ ri, completeSched (s2 ri) 5) :
    searchRun P s1 = searchRun P s2 := by
  have hscore : candidateScore P s1 = candidateScore P s2 := by
    funext ri
    rw [candidateScore, candidateScore]
    have hlen : ((List.range 5).map (fun t => P.draw (ri * 5 + t))).length = 5 := by
      simp
    rw [poolMap_complete (s1 ri) _ _ (by rw [hlen]; exact h1 ri),
      poolMap_complete (s2 ri) _ _ (by rw [hlen]; exact h2 ri)]
  rw [searchRun, searchRun, hscore]

/-- C5 witness: a forward and a reversed schedule of the five repeats
produce identical search outcomes on a concrete parameter set. -/
theorem search_deterministic_witness :
    searchRun (⟨fun k => k, fun s _ => s, fun _ _ => 0, fun _ => 7⟩ :
        SearchParams ℕ ℕ ℕ) (fun _ => [0, 1, 2, 3, 4]) =
      searchRun (⟨fun k => k, fun s _ => s, fun _ _ => 0, fun _ => 7⟩ :
        SearchParams ℕ ℕ ℕ) (fun _ => [4, 3, 2, 1, 0]) :=
  search_deterministic _ _ _ (fun _ => by decide) (fun _ => by decide)

/-- Unfolding of `idxOfMax` over one more candidate. -/
theorem idxOfMax_succ (f : ℕ → ℚ) (n : ℕ) :
    idxOfMax f (n + 1) = if f (idxOfMax f n) < f n then n else idxOfMax f n := by
  rw [idxOfMax, idxOfMax, List.range_succ, List.foldl_append, List.foldl_cons,
    List.foldl_nil]

/-- The argmax index is within range. -/
theorem idxOfMax_lt (f : ℕ → ℚ) (n : ℕ) (h : 0 < n) : idxOfMax f n < n := by
  induction n with
  | zero => cases h
  | succ m ih =>
    rw [idxOfMax_succ]
    by_cases hc : f (idxOfMax f m) < f m
    · rw [if_pos hc]; exact Nat.lt_succ_self m
    · rw [if_neg hc]
      rcases Nat.eq_zero_or_pos m with h0 | hm
      · subst h0
        simp [idxOfMax]
      · exact Nat.lt_succ_of_lt (ih hm)

/-- The argmax value dominates every candidate: `np.argmax` selects a
maximising index. -/
theorem le_idxOfMax (f : ℕ → ℚ) (n : ℕ) : ∀ j, j < n → f j ≤ f (idxOfMax f n) := by
  induction n with
  | zero => intro j hj; cases hj
  | succ m ih =>
    intro j hj
    rw [idxOfMax_succ]
    by_cases hc : f (idxOfMax f m) < f m
    · rw [if_pos hc]
      rcases Nat.lt_succ_iff_lt_or_eq.mp hj with hjm | hje
      · exact le_of_lt (lt_of_le_of_lt (ih j hjm) hc)
      · rw [hje]
    · rw [if_neg hc]
      rcases Nat.lt_succ_iff_lt_or_eq.mp hj with hjm | hje
      · exact ih j hjm
      · rw [hje]; exact le_of_not_lt hc

/-- Lookup steps over a non-matching key. -/
theorem lookupPR_cons_neg {L : Type} (k k' : PreRat) (v : L)
    (rest : List (PreRat × L)) (h : k.sameVal k' = false) :
    lookupPR k ((k', v) :: rest) = lookupPR k rest := by
  simp [lookupPR, h]

/-- Lookup stops at a matching key. -/
theorem lookupPR_cons_pos {L : Type} (k k' : PreRat) (v : L)
    (rest : List (PreRat × L)) (h : k.sameVal k' = true) :
    lookupPR k ((k', v) :: rest) = some v := by
  simp [lookupPR, h]

/-- Looking any grid resolution up in the stored columns finds the
labels stored for it: the key stored under the rounded resolution has
the same double value as the unrounded grid entry. -/
theorem lookupPR_louvainStore {L : Type} (labelAt : PreRat → L) (i : ℕ)
    (h : i < 6) :
    lookupPR (linval i) (louvainStore labelAt) =
      some (labelAt (round1 (linval i))) := by
  have hstore : louvainStore labelAt =
      [(round1 (linval 0), labelAt (round1 (linval 0))),
       (round1 (linval 1), labelAt (round1 (linval 1))),
       (round1 (linval 2), labelAt (round1 (linval 2))),
       (round1 (linval 3), labelAt (round1 (linval 3))),
       (round1 (linval 4), labelAt (round1 (linval 4))),
       (round1 (linval 5), labelAt (round1 (linval 5)))] := rfl
  interval_cases i
  · rw [hstore, lookupPR_cons_pos _ _ _ _ (by decide)]
  · rw [hstore, lookupPR_cons_neg _ _ _ _ (by decide),
      lookupPR_cons_pos _ _ _ _ (by decide)]
  · rw [hstore, lookupPR_cons_neg _ _ _ _ (by decide),
      lookupPR_cons_neg _ _ _ _ (by decide),
      lookupPR_cons_pos _ _ _ _ (by decide)]
  · rw [hstore, lookupPR_cons_neg _ _ _ _ (by decide),
      lookupPR_cons_neg _ _ _ _ (by decide),
      lookupPR_cons_neg _ _ _ _ (by decide),
      lookupPR_cons_pos _ _ _ _ (by decide)]
  · rw [hstore, lookupPR_cons_neg _ _ _ _ (by decide),
      lookupPR_cons_neg _ _ _ _ (by decide),
      lookupPR_cons_neg _ _ _ _ (by decide),
      lookupPR_cons_neg _ _ _ _ (by decide),
      lookupPR_cons_pos _ _ _ _ (by decide)]
  · rw [hstore, lookupPR_cons_neg _ _ _ _ (by decide),
      lookupPR_cons_neg _ _ _ _ (by decide),
      lookupPR_cons_neg _ _ _ _ (by decide),
      lookupPR_cons_neg _ _ _ _ (by decide),
      lookupPR_cons_neg _ _ _ _ (by decide),
      lookupPR_cons_pos _ _ _ _ (by decide)]

/-- C1: the search selects the first index maximising the silhouette
scores; the stored key of every candidate (built from the rounded
resolution) has the same double value as the unrounded grid entry, so
the final lookup under the selected resolution succeeds for every
possible selection and returns exactly the labels clustered at that
resolution. -/
theorem auto_resolution_final_lookup {L : Type} (labelAt : PreRat → L)
    (sil : ℕ → ℚ) :
    (∀ j, j < 6 → sil j ≤ sil (idxOfMax sil 6)) ∧
      (∀ i, i < 6 → ((round1 (linval i)).sameVal (linval i)) = true) ∧
      (∀ i, i < 6 → lookupPR (linval i) (louvainStore labelAt) =
        some (labelAt (round1 (linval i)))) ∧
      finalLouvain labelAt sil =
        some (labelAt (round1 (linval (idxOfMax sil 6)))) := by
  refine ⟨le_idxOfMax sil 6, by decide, lookupPR_louvainStore labelAt, ?_⟩
  rw [finalLouvain, bestResolution]
  exact lookupPR_louvainStore labelAt _ (idxOfMax_lt sil 6 (by norm_num))

/-- C1 witness: a concrete silhouette profile — the lookup succeeds
and the selected score dominates candidate 3. -/
theorem auto_resolution_final_lookup_witness :
    finalLouvain (fun r => r) (fun j => (j : ℚ)) =
      some (round1 (linval (idxOfMax (fun j => (j : ℚ)) 6))) ∧
      (fun j => (j : ℚ)) 3 ≤ (fun j => (j : ℚ)) (idxOfMax (fun j => (j : ℚ)) 6) :=
  ⟨(auto_resolution_final_lookup (fun r => r) (fun j => (j : ℚ))).2.2.2,
   (auto_resolution_final_lookup (fun r => r) (fun j => (j : ℚ))).1 3 (by norm_num)⟩
